import Mathlib

/-!
Verification development for the html-minifier repository (Rust core).

The definitions below are a shallow embedding of the Rust source files
`src/tokenizer.rs`, `src/html/processor.rs`, `src/html/context.rs`,
`src/html/utils.rs`, `src/constants.rs`, `src/minifiers/css.rs` and
`src/minifiers/javascript.rs`.  Strings are modelled as `List Char`
(Rust iterates `chars()`, which yields Unicode scalar values, exactly as
`List Char` does).  The few places where the Rust code works on UTF-8
bytes rather than chars are modelled explicitly via `utf8Len` /
`utf8_last_byte`.  Main loops whose handlers consume an arbitrary number
of characters are written with an explicit fuel parameter; the top-level
wrappers supply fuel `length + 1`, and the termination theorems prove
this fuel is always sufficient.
-/

/-- The characters with the Unicode `White_Space` property: the exact set
accepted by Rust's `char::is_whitespace`. -/
def rust_is_whitespace (c : Char) : Bool :=
  c.toNat ∈ [0x09, 0x0A, 0x0B, 0x0C, 0x0D, 0x20, 0x85, 0xA0, 0x1680] ||
  (0x2000 ≤ c.toNat && c.toNat ≤ 0x200A) ||
  c.toNat ∈ [0x2028, 0x2029, 0x202F, 0x205F, 0x3000]

/-- ASCII fragment of Rust's `char::is_alphanumeric` (the claims under
verification only exercise ASCII inputs; non-ASCII letters and digits are
not modelled, uniformly on the code side and on the claim side). -/
def rust_is_alphanumeric (c : Char) : Bool :=
  ('A' ≤ c && c ≤ 'Z') || ('a' ≤ c && c ≤ 'z') || ('0' ≤ c && c ≤ '9')

/-- ASCII lowercasing of one char, as Rust's `make_ascii_lowercase`. -/
def ascii_lower_char (c : Char) : Char :=
  if 'A' ≤ c ∧ c ≤ 'Z' then Char.ofNat (c.toNat + 32) else c

/-- ASCII lowercasing of a string (`to_ascii_lowercase`; also used to model
`to_lowercase`, which the repository only applies to ASCII names). -/
def ascii_lower (s : List Char) : List Char := s.map ascii_lower_char

/-- Number of bytes of the UTF-8 encoding of a scalar value. -/
def utf8Len (c : Char) : Nat :=
  if c.toNat < 128 then 1
  else if c.toNat < 2048 then 2
  else if c.toNat < 65536 then 3
  else 4

/-- Byte length of a string, as Rust's `str::len`. -/
def byte_len (s : List Char) : Nat := (s.map utf8Len).sum

/-- Last byte of the UTF-8 encoding of a char. -/
def utf8_last_byte (c : Char) : Nat :=
  if c.toNat < 128 then c.toNat else 128 + c.toNat % 64

/-- The last byte of a string read back as a char, as in
`result.as_bytes().last()` followed by `as char` in `minify_css`. -/
def last_byte_char (s : List Char) : Option Char :=
  s.getLast?.map (fun c => Char.ofNat (utf8_last_byte c))

/-- Boolean suffix test (Rust `str::ends_with`). -/
def ends_with (s pat : List Char) : Bool := pat.isSuffixOf s

/-- Rust `str::trim_end` (drops trailing Unicode whitespace). -/
def trim_end_ws (s : List Char) : List Char :=
  (s.reverse.dropWhile rust_is_whitespace).reverse

/-- Rust `str::trim` (drops Unicode whitespace at both ends). -/
def trim_ws (s : List Char) : List Char :=
  ((s.dropWhile rust_is_whitespace).reverse.dropWhile rust_is_whitespace).reverse

/-! ## CSS minifier (`src/minifiers/css.rs`) -/

/-- Loop body of `handle_css_string_literal`: every char is copied, the
char after a backslash is copied unconditionally, an (unescaped) closing
quote ends the literal; an unterminated literal consumes to end of input. -/
def css_string_literal_loop (res : List Char) (q : Char) : List Char → List Char × List Char
  | [] => (res, [])
  | c :: rest =>
    if c = q then (res ++ [c], rest)
    else if c = '\\' then
      match rest with
      | [] => (res ++ [c], [])
      | e :: rest2 => css_string_literal_loop (res ++ [c, e]) q rest2
    else css_string_literal_loop (res ++ [c]) q rest

/-- `handle_css_string_literal`: pushes the opening quote, then copies the
literal verbatim. -/
def handle_css_string_literal (res : List Char) (q : Char) (cs : List Char) :
    List Char × List Char :=
  css_string_literal_loop (res ++ [q]) q cs

/-- Body of both block-comment skippers (`handle_css_comment` and the
`/* ... */` arm of `handle_js_comment`): scan with one char of lookback
until `*/`, consuming to end of input if unterminated. -/
def skip_block_comment (prev : Char) : List Char → List Char
  | [] => []
  | c :: rest => if prev = '*' ∧ c = '/' then rest else skip_block_comment c rest

/-- `handle_css_comment`: `cs` is the input after the `/`; a following `*`
opens a comment that is discarded entirely, anything else is not a comment. -/
def handle_css_comment (cs : List Char) : Option (List Char) :=
  match cs with
  | '*' :: rest => some (skip_block_comment ' ' rest)
  | _ => none

/-- `should_add_css_space`. -/
def should_add_css_space (last_ch : Char) (next : Option Char) : Bool :=
  if last_ch ∈ ['{', '}', ':', ';', ',', '>', '+', '~', '(', '['] then false
  else
    match next with
    | some n => !(n ∈ ['{', '}', ':', ';', ',', ')', ']'])
    | none => true

/-- `handle_css_whitespace`: called with the input positioned after the
first whitespace char of the run; consumes the rest of the run and pushes
at most one space. -/
def handle_css_whitespace (res : List Char) (last_ch : Char) (cs : List Char) :
    List Char × List Char :=
  let rest := cs.dropWhile rust_is_whitespace
  let res2 :=
    if should_add_css_space last_ch rest.head? ∧ last_ch ≠ ' ' then res ++ [' '] else res
  (res2, rest)

/-- First non-whitespace char of the remaining input (the cloned-iterator
lookahead in the `;` arm of `minify_css`). -/
def next_non_ws (cs : List Char) : Option Char :=
  (cs.dropWhile rust_is_whitespace).head?

/-- Main loop of `minify_css`, carrying `(result, last_ch)`; `none` means
the fuel ran out (never happens for fuel greater than the input length). -/
def minify_css_loop : Nat → List Char → Char → List Char → Option (List Char × Char)
  | 0, _, _, _ => none
  | _ + 1, res, last_ch, [] => some (res, last_ch)
  | f + 1, res, last_ch, ch :: rest =>
    if ch = '"' ∨ ch = '\'' then
      let p := handle_css_string_literal res ch rest
      minify_css_loop f p.1 ch p.2
    else if ch = '/' then
      match handle_css_comment rest with
      | some rest2 => minify_css_loop f res last_ch rest2
      | none => minify_css_loop f (res ++ [ch]) ch rest
    else if rust_is_whitespace ch then
      let p := handle_css_whitespace res last_ch rest
      let last2 := match last_byte_char p.1 with | some c => c | none => last_ch
      minify_css_loop f p.1 last2 p.2
    else if ch ∈ [':', ',', '{', '>', '+', '~'] then
      let res2 := if last_ch = ' ' then res.dropLast else res
      minify_css_loop f (res2 ++ [ch]) ch rest
    else if ch = ';' then
      if next_non_ws rest ≠ some '}' then
        let res2 := if last_ch = ' ' then res.dropLast else res
        minify_css_loop f (res2 ++ [ch]) ch rest
      else minify_css_loop f res ';' rest
    else if ch = '}' then
      let res2 :=
        if (last_ch = ' ' ∨ last_ch = ';') ∧
            (res.getLast? = some ' ' ∨ res.getLast? = some ';') then
          res.dropLast
        else res
      minify_css_loop f (res2 ++ [ch]) ch rest
    else minify_css_loop f (res ++ [ch]) ch rest

/-- `minify_css`: run the loop, then drop a final trailing space and any
leading whitespace. -/
def minify_css (cs : List Char) : List Char :=
  match minify_css_loop (cs.length + 1) [] (Char.ofNat 0) cs with
  | none => []
  | some p =>
    let res2 := if p.2 = ' ' then p.1.dropLast else p.1
    res2.dropWhile rust_is_whitespace

/-! ## JavaScript minifier (`src/minifiers/javascript.rs`) -/

/-- Loop body of `handle_js_string_literal` (same shape as for CSS). -/
def js_string_literal_loop (res : List Char) (q : Char) : List Char → List Char × List Char
  | [] => (res, [])
  | c :: rest =>
    if c = q then (res ++ [c], rest)
    else if c = '\\' then
      match rest with
      | [] => (res ++ [c], [])
      | e :: rest2 => js_string_literal_loop (res ++ [c, e]) q rest2
    else js_string_literal_loop (res ++ [c]) q rest

/-- `handle_js_string_literal`. -/
def handle_js_string_literal (res : List Char) (q : Char) (cs : List Char) :
    List Char × List Char :=
  js_string_literal_loop (res ++ [q]) q cs

/-- Loop body of `handle_js_template_literal`: copies verbatim, tracking
interpolation nesting depth so that a backtick inside an interpolation
does not end the literal.  The match distinguishes the current char and
the lookahead char; with exactly one char left every arm of the source
loop pushes that char and then stops at end of input. -/
def js_template_loop (res : List Char) (depth : Nat) : List Char → List Char × List Char
  | [] => (res, [])
  | [c] => (res ++ [c], [])
  | c :: e :: rest2 =>
    if c = Char.ofNat 96 ∧ depth = 0 then (res ++ [c], e :: rest2)
    else if c = '\\' then js_template_loop (res ++ [c, e]) depth rest2
    else if c = '$' then
      if e = '{' then js_template_loop (res ++ [c, '{']) (depth + 1) rest2
      else js_template_loop (res ++ [c]) depth (e :: rest2)
    else if c = '}' ∧ depth > 0 then js_template_loop (res ++ [c]) (depth - 1) (e :: rest2)
    else js_template_loop (res ++ [c]) depth (e :: rest2)

/-- `handle_js_template_literal`: pushes the opening backtick then runs
the loop with depth 0. -/
def handle_js_template_literal (res : List Char) (cs : List Char) : List Char × List Char :=
  js_template_loop (res ++ [Char.ofNat 96]) 0 cs

/-- Flag consumption at the end of a regex literal (`g i m s u y`). -/
def js_regex_flags (res : List Char) : List Char → List Char × List Char
  | [] => (res, [])
  | c :: rest =>
    if c ∈ ['g', 'i', 'm', 's', 'u', 'y'] then js_regex_flags (res ++ [c]) rest
    else (res, c :: rest)

/-- Loop body of `handle_js_regex`: copies verbatim, tracking a character
class so that `/` inside `[...]` does not end the literal; a newline ends
the (invalid) literal after being copied. -/
def js_regex_loop (res : List Char) (in_class : Bool) : List Char → List Char × List Char
  | [] => (res, [])
  | c :: rest =>
    if c = '/' ∧ ¬in_class then js_regex_flags (res ++ [c]) rest
    else if c = '\\' then
      match rest with
      | [] => (res ++ [c], [])
      | e :: rest2 => js_regex_loop (res ++ [c, e]) in_class rest2
    else if c = '[' then js_regex_loop (res ++ [c]) true rest
    else if c = ']' then js_regex_loop (res ++ [c]) false rest
    else if c = '\n' ∨ c = '\r' then (res ++ [c], rest)
    else js_regex_loop (res ++ [c]) in_class rest

/-- `handle_js_regex`: pushes the opening `/` then copies the literal. -/
def handle_js_regex (res : List Char) (cs : List Char) : List Char × List Char :=
  js_regex_loop (res ++ ['/']) false cs

/-- Discard to end of line for a `//` comment. -/
def js_line_comment : List Char → List Char
  | [] => []
  | c :: rest => if c = '\n' then rest else js_line_comment rest

/-- `handle_js_comment`: `cs` is the input after the first `/`; a second
`/` opens a line comment, a `*` a block comment, both fully discarded. -/
def handle_js_comment (cs : List Char) : Option (List Char) :=
  match cs with
  | '/' :: rest => some (js_line_comment rest)
  | '*' :: rest => some (skip_block_comment ' ' rest)
  | _ => none

/-- `is_regex_after_single_char_operator`. -/
def is_regex_after_single_char_operator (t : List Char) : Bool :=
  match t.getLast? with
  | some c => c ∈ ['(', '[', '{', ',', ';', ':', '=', '!', '&', '|', '?', '~']
  | none => false

/-- `is_regex_after_double_operator`: the twelve two-char operators
`++ -- ** == != <= >= << >> && || ??`. -/
def is_regex_after_double_operator (t : List Char) : Bool :=
  ends_with t ['+', '+'] || ends_with t ['-', '-'] || ends_with t ['*', '*'] ||
  ends_with t ['=', '='] || ends_with t ['!', '='] || ends_with t ['<', '='] ||
  ends_with t ['>', '='] || ends_with t ['<', '<'] || ends_with t ['>', '>'] ||
  ends_with t ['&', '&'] || ends_with t ['|', '|'] || ends_with t ['?', '?']

/-- `is_regex_after_ambiguous_operator`: the `trimmed.len() >= 2` test in
the source is on bytes, hence `byte_len`; `nth_back(1)` is the
second-to-last char.  The `none` inner case is unreachable (the last char
is ASCII, so byte length 2 forces a preceding char) and mirrors the
`unwrap` in the source. -/
def is_regex_after_ambiguous_operator (t : List Char) : Option Bool :=
  match t.getLast? with
  | none => none
  | some last =>
    if last ∈ ['+', '-', '*', '%', '<', '>'] then
      if byte_len t ≥ 2 then
        match t.dropLast.getLast? with
        | some before =>
          if rust_is_alphanumeric before ∨ before ∈ [')', ']', '_', '$'] then some false
          else some true
        | none => some true
      else some true
    else none

/-- The keyword set of `is_regex_after_keyword`. -/
def js_keywords : List (List Char) :=
  ["return", "throw", "new", "typeof", "void", "delete", "in", "of",
   "instanceof", "yield", "await", "case"].map (fun s => s.toList)

/-- `is_regex_after_keyword`: `keyword_start` is a byte index; the `nth`
lookup is by chars.  A failed lookup just moves on to the next keyword. -/
def is_regex_after_keyword (t : List Char) : Bool :=
  js_keywords.any (fun kw =>
    ends_with t kw &&
      (let ks := byte_len t - kw.length
       ks = 0 ||
         (match t.get? (ks - 1) with
          | some b => !(rust_is_alphanumeric b || b = '_' || b = '$')
          | none => false)))

/-- `is_division_context`. -/
def is_division_context (t : List Char) : Bool :=
  match t.getLast? with
  | some c => rust_is_alphanumeric c || c ∈ [')', ']', '_', '$']
  | none => false

/-- `is_regex_context`: the regex/division disambiguation over the
trimmed already-emitted output, in the precedence of the source. -/
def is_regex_context (res : List Char) : Bool :=
  let t := trim_end_ws res
  if t = [] then true
  else if is_regex_after_single_char_operator t then true
  else if is_regex_after_double_operator t then true
  else
    match is_regex_after_ambiguous_operator t with
    | some b => b
    | none =>
      if is_regex_after_keyword t then true
      else if is_division_context t then false
      else false

/-- `handle_js_whitespace`: called with the input positioned after the
first whitespace char of the run; pushes one space only when the char
right after that first whitespace char and the last emitted char are both
identifier characters, then consumes the rest of the run. -/
def handle_js_whitespace (res : List Char) (cs : List Char) : List Char × List Char :=
  let res2 :=
    if res ≠ [] ∧ ¬ends_with res [' '] then
      match cs.head? with
      | some n =>
        let last_ch := match res.getLast? with | some c => c | none => ' '
        if (rust_is_alphanumeric last_ch ∨ last_ch = '_' ∨ last_ch = '$') ∧
            (rust_is_alphanumeric n ∨ n = '_' ∨ n = '$') then
          res ++ [' ']
        else res
      | none => res
    else res
  (res2, cs.dropWhile rust_is_whitespace)

/-- Main loop of `minify_javascript`. -/
def minify_javascript_loop : Nat → List Char → List Char → Option (List Char)
  | 0, _, _ => none
  | _ + 1, res, [] => some res
  | f + 1, res, ch :: rest =>
    if ch = '"' ∨ ch = '\'' then
      let p := handle_js_string_literal res ch rest
      minify_javascript_loop f p.1 p.2
    else if ch = Char.ofNat 96 then
      let p := handle_js_template_literal res rest
      minify_javascript_loop f p.1 p.2
    else if ch = '/' then
      match handle_js_comment rest with
      | some rest2 => minify_javascript_loop f res rest2
      | none =>
        if is_regex_context res then
          let p := handle_js_regex res rest
          minify_javascript_loop f p.1 p.2
        else minify_javascript_loop f (res ++ [ch]) rest
    else if rust_is_whitespace ch then
      let p := handle_js_whitespace res rest
      minify_javascript_loop f p.1 p.2
    else minify_javascript_loop f (res ++ [ch]) rest

/-- `minify_javascript`: run the loop, then trim both ends. -/
def minify_javascript (cs : List Char) : List Char :=
  match minify_javascript_loop (cs.length + 1) [] cs with
  | none => []
  | some res => trim_ws res

/-! ## Tokenizer (`src/tokenizer.rs`)

The Rust tokenizer works on UTF-8 bytes; every delimiter it compares
against is ASCII, and ASCII bytes only occur in UTF-8 as stand-alone
chars, so scanning chars is equivalent (the `position + k < end` length
guards also agree on chars whenever the `k`-byte pattern itself matches,
since the patterns are pure ASCII). -/

inductive Tok where
  | TextNode (s : List Char)
  | TagOpenStart (s : List Char)
  | Attribute (s : List Char)
  | TagOpenEnd
  | TagSelfClose
  | TagClose (s : List Char)
  | Comment (s : List Char)
  | Doctype (s : List Char)
  | Cdata (s : List Char)
deriving DecidableEq, Repr

/-- Tokenizer state: the not-yet-consumed input and the `in_tag` flag. -/
structure TokState where
  rest : List Char
  in_tag : Bool
deriving DecidableEq, Repr

/-- `Tokenizer::skip_whitespace` (byte-level: only the four ASCII ones). -/
def skip_ascii_ws (cs : List Char) : List Char :=
  cs.dropWhile (fun c => c ∈ [' ', '\t', '\n', '\r'])

/-- `consume_until_bytes` for a multi-char delimiter: the consumed slice
before the delimiter, and the input after it (everything, if absent). -/
def consume_until_seq (delim : List Char) : List Char → List Char × List Char
  | [] => ([], [])
  | c :: rest =>
    if delim.isPrefixOf (c :: rest) then ([], (c :: rest).drop delim.length)
    else
      let p := consume_until_seq delim rest
      (c :: p.1, p.2)

/-- `consume_until_byte`: stops at the delimiter without consuming it. -/
def consume_until_byte (b : Char) (cs : List Char) : List Char × List Char :=
  (cs.takeWhile (· ≠ b), cs.dropWhile (· ≠ b))

/-- `consume_tag_name`: the name runs to `>`, `/` or ASCII whitespace. -/
def consume_tag_name (cs : List Char) : List Char × List Char :=
  (cs.takeWhile (fun c => ¬(c ∈ ['>', '/', ' ', '\t', '\n', '\r'])),
   cs.dropWhile (fun c => ¬(c ∈ ['>', '/', ' ', '\t', '\n', '\r'])))

/-- `consume_attribute_name`: consumes up to and including a `=`, or up to
(excluding) ASCII whitespace or `>`; returns whether a `=` was consumed
and the remaining input. -/
def attr_name_rest : List Char → Bool × List Char
  | [] => (false, [])
  | c :: rest =>
    if c = '=' then (true, rest)
    else if c ∈ [' ', '\t', '\n', '\r', '>'] then (false, c :: rest)
    else attr_name_rest rest

/-- `consume_quoted_value` after the opening quote: consumes up to and
including the closing quote (or all input). -/
def consume_quoted_rest (q : Char) : List Char → List Char
  | [] => []
  | c :: rest => if c = q then rest else consume_quoted_rest q rest

/-- `consume_unquoted_value`: stops at ASCII whitespace or `>`. -/
def consume_unquoted_rest (cs : List Char) : List Char :=
  cs.dropWhile (fun c => ¬(c ∈ [' ', '\t', '\n', '\r', '>']))

/-- Remaining input after `consume_attribute` has consumed the name and
the optional value, starting from the post-whitespace position `cs1`. -/
def consume_attribute_rest (cs1 : List Char) : List Char :=
  let p := attr_name_rest cs1
  if p.1 then
    match skip_ascii_ws p.2 with
    | q :: rtail =>
      if q = '"' ∨ q = '\'' then consume_quoted_rest q rtail
      else consume_unquoted_rest (q :: rtail)
    | [] => []
  else p.2

/-- `consume_attribute`: skip whitespace, stop at end or `>`, else consume
a name and an optional value; the captured slice is everything between
the post-whitespace start position and the final position (`position >
start` becomes the length comparison). -/
def consume_attribute (cs : List Char) : Option (List Char × List Char) :=
  match skip_ascii_ws cs with
  | [] => none
  | c :: tail =>
    if c = '>' then none
    else
      let cs1 := c :: tail
      let rest2 := consume_attribute_rest cs1
      if rest2.length < cs1.length then
        some (cs1.take (cs1.length - rest2.length), rest2)
      else none

/-- `parse_special_tag`, entered just after `<!`.  The `position + k < end`
guards require one char beyond the marker itself.  The comment-fallback
branch captures the construct from the `<` on, including the closing `>`
when present. -/
def parse_special_tag (r2 : List Char) : Option (Tok × TokState) :=
  if r2.length > 2 ∧ r2.take 2 = ("--").toList then
    let p := consume_until_seq (("-->").toList) (r2.drop 2)
    some (.Comment p.1, ⟨p.2, false⟩)
  else if r2.length > 7 ∧ r2.take 7 = ("DOCTYPE").toList then
    match consume_until_byte '>' r2 with
    | (content, '>' :: r3) => some (.Doctype ('<' :: '!' :: (content ++ ['>'])), ⟨r3, false⟩)
    | (content, rest) => some (.Doctype ('<' :: '!' :: content), ⟨rest, false⟩)
  else if r2.length > 7 ∧ r2.take 7 = ("[CDATA[").toList then
    let p := consume_until_seq (("]]>").toList) (r2.drop 7)
    some (.Cdata p.1, ⟨p.2, false⟩)
  else
    match consume_until_byte '>' r2 with
    | (content, '>' :: r3) => some (.Comment ('<' :: '!' :: (content ++ ['>'])), ⟨r3, false⟩)
    | (content, rest) => some (.Comment ('<' :: '!' :: content), ⟨rest, false⟩)

/-- `parse_close_tag`, entered just after `</`. -/
def parse_close_tag (r2 : List Char) : Option (Tok × TokState) :=
  match consume_until_byte '>' r2 with
  | (tag_name, '>' :: r3) => some (.TagClose tag_name, ⟨r3, false⟩)
  | (tag_name, rest) => some (.TagClose tag_name, ⟨rest, false⟩)

/-- `parse_open_tag`, entered just after `<`: consumes the name and enters
tag mode. -/
def parse_open_tag (r : List Char) : Option (Tok × TokState) :=
  let p := consume_tag_name r
  some (.TagOpenStart p.1, ⟨p.2, true⟩)

/-- `parse_tag`, entered just after `<`. -/
def parse_tag (r : List Char) : Option (Tok × TokState) :=
  match r with
  | [] => none
  | '!' :: r2 => parse_special_tag r2
  | '/' :: r2 => parse_close_tag r2
  | _ => parse_open_tag r

/-- `parse_text_node`: a text run extends to the next `<` or end of input;
an empty run yields no token. -/
def parse_text_node (cs : List Char) : Option (Tok × TokState) :=
  match consume_until_byte '<' cs with
  | ([], _) => none
  | (txt, rest) => some (.TextNode txt, ⟨rest, false⟩)

/-- Dispatch outside tag mode: `<` starts tag parsing, otherwise text. -/
def parse_non_tag (cs : List Char) : Option (Tok × TokState) :=
  match cs with
  | '<' :: r => parse_tag r
  | _ => parse_text_node cs

/-- `Tokenizer::next_token`: skips ASCII whitespace, handles tag mode
(`>`, `/>`, attribute, or malformed-tag recovery into non-tag parsing),
otherwise dispatches on `<` versus text. -/
def next_token (st : TokState) : Option (Tok × TokState) :=
  match skip_ascii_ws st.rest with
  | [] => none
  | c :: rest =>
    if st.in_tag then
      if c = '>' then some (.TagOpenEnd, ⟨rest, false⟩)
      else if c = '/' ∧ rest.head? = some '>' then some (.TagSelfClose, ⟨rest.drop 1, false⟩)
      else
        match consume_attribute (c :: rest) with
        | some p => some (.Attribute p.1, ⟨p.2, true⟩)
        | none => parse_non_tag (c :: rest)
    else parse_non_tag (c :: rest)

/-! ## Constants (`src/constants.rs`) -/

def SINGLETON_ELEMENTS : List (List Char) :=
  ["area", "base", "br", "col", "embed", "hr", "img", "input", "link", "meta",
   "param", "source", "track", "wbr"].map (fun s => s.toList)

def CLOSE_OPTIONAL_ELEMENTS : List (List Char) :=
  ["p", "dt", "dd", "li", "option", "thead", "th", "tbody", "tr", "td",
   "tfoot", "colgroup"].map (fun s => s.toList)

def BOOLEAN_ATTRIBUTES : List (List Char) :=
  ["allowfullscreen", "async", "autofocus", "autoplay", "checked", "controls",
   "default", "defer", "disabled", "formnovalidate", "hidden", "inert",
   "ismap", "itemscope", "loop", "multiple", "muted", "nomodule", "novalidate",
   "open", "playsinline", "readonly", "required", "reversed", "selected",
   "typemustmatch"].map (fun s => s.toList)

def EMPTY_REMOVABLE_ATTRIBUTES : List (List Char) :=
  ["id", "class", "style", "title", "action", "lang", "dir", "onfocus",
   "onblur", "onchange", "onclick", "ondblclick", "onmousedown", "onmouseup",
   "onmouseover", "onmousemove", "onmouseout", "onkeypress", "onkeydown",
   "onkeyup", "target"].map (fun s => s.toList)

def is_singleton_element (tag : List Char) : Bool := tag ∈ SINGLETON_ELEMENTS

def is_close_optional (tag : List Char) : Bool := tag ∈ CLOSE_OPTIONAL_ELEMENTS

def is_boolean_attribute (attr : List Char) : Bool := attr ∈ BOOLEAN_ATTRIBUTES

def is_empty_removable (attr : List Char) : Bool := attr ∈ EMPTY_REMOVABLE_ATTRIBUTES

/-- `has_default_value`. -/
def has_default_value (tag attr value : List Char) : Bool :=
  (tag = ("script").toList ∧ attr = ("type").toList ∧ value = ("text/javascript").toList) ∨
  (tag = ("style").toList ∧ attr = ("type").toList ∧ value = ("text/css").toList) ∨
  (tag = ("style").toList ∧ attr = ("media").toList ∧ value = ("all").toList) ∨
  (tag = ("form").toList ∧ attr = ("method").toList ∧ value = ("get").toList) ∨
  (tag = ("form").toList ∧ attr = ("autocomplete").toList ∧ value = ("on").toList) ∨
  (tag = ("form").toList ∧ attr = ("enctype").toList ∧
    value = ("application/x-www-form-urlencoded").toList) ∨
  (tag = ("input").toList ∧ attr = ("type").toList ∧ value = ("text").toList) ∨
  (tag = ("button").toList ∧ attr = ("type").toList ∧ value = ("submit").toList)

/-- `should_remove_quotes`: nonempty, and every byte ASCII alphanumeric or
in the fixed safe list (any other byte, including every non-ASCII byte,
forces quoting; a non-ASCII char fails the check in both views). -/
def should_remove_quotes (value : List Char) : Bool :=
  if value = [] then false
  else
    value.all (fun c =>
      rust_is_alphanumeric c ||
      c ∈ ['-', '_', '.', ':', '/', '#', '@', '%', '!', '*', '~'])

/-! ## Minifier options (`src/config.rs`) -/

structure MinifierOptions where
  remove_comments : Bool
  collapse_whitespace : Bool
  remove_optional_tags : Bool
  remove_attribute_quotes : Bool
  collapse_boolean_attributes : Bool
  remove_default_attributes : Bool
  remove_empty_attributes : Bool
  minify_js : Bool
  minify_css : Bool
  preserve_conditional_comments : Bool
deriving DecidableEq, Repr

/-- `MinifierOptions::default()`: everything on except conditional-comment
preservation. -/
def default_options : MinifierOptions :=
  { remove_comments := true
    collapse_whitespace := true
    remove_optional_tags := true
    remove_attribute_quotes := true
    collapse_boolean_attributes := true
    remove_default_attributes := true
    remove_empty_attributes := true
    minify_js := true
    minify_css := true
    preserve_conditional_comments := false }

/-! ## Minifier context (`src/html/context.rs`) -/

structure MinifierContext where
  in_pre_tag : Bool
  in_script_tag : Bool
  in_style_tag : Bool
  current_tag : List Char
  options : MinifierOptions
deriving DecidableEq, Repr

/-- `MinifierContext::new`. -/
def MinifierContext.new (opts : MinifierOptions) : MinifierContext :=
  { in_pre_tag := false, in_script_tag := false, in_style_tag := false,
    current_tag := [], options := opts }

/-- `update_for_open_tag`: the current tag becomes the lowercased name and
all three flags are recomputed from it alone. -/
def update_for_open_tag (ctx : MinifierContext) (tag_name : List Char) : MinifierContext :=
  let ct := ascii_lower tag_name
  { ctx with
    current_tag := ct
    in_pre_tag := ct = ("pre").toList ∨ ct = ("code").toList ∨ ct = ("textarea").toList
    in_script_tag := ct = ("script").toList
    in_style_tag := ct = ("style").toList }

/-- `update_for_close_tag`: each flag is cleared only when the lowercased
closing name governs it. -/
def update_for_close_tag (ctx : MinifierContext) (tag_name : List Char) : MinifierContext :=
  let tl := ascii_lower tag_name
  let c1 :=
    if tl = ("pre").toList ∨ tl = ("code").toList ∨ tl = ("textarea").toList then
      { ctx with in_pre_tag := false }
    else ctx
  let c2 := if tl = ("script").toList then { c1 with in_script_tag := false } else c1
  if tl = ("style").toList then { c2 with in_style_tag := false } else c2

/-! ## Attribute and whitespace utilities (`src/html/utils.rs`) -/

/-- `append_collapsed_whitespace`: every whitespace run becomes a single
space (including a leading one). -/
def acw_loop (res : List Char) (prev_was_space : Bool) : List Char → List Char
  | [] => res
  | c :: rest =>
    if rust_is_whitespace c then
      if !prev_was_space then acw_loop (res ++ [' ']) true rest
      else acw_loop res prev_was_space rest
    else acw_loop (res ++ [c]) false rest

def append_collapsed_whitespace (res content : List Char) : List Char :=
  acw_loop res false content

/-- `process_style_attribute`: minify as CSS, then strip every trailing
semicolon (`trim_end_matches`). -/
def process_style_attribute (value : List Char) : List Char :=
  ((minify_css value).reverse.dropWhile (· = ';')).reverse

/-- `process_class_attribute`: collapse whitespace runs to one space, with
no leading space (the push is guarded by the result being nonempty). -/
def pca_loop (res : List Char) (prev_space : Bool) : List Char → List Char
  | [] => res
  | c :: rest =>
    if rust_is_whitespace c then
      if !prev_space ∧ res ≠ [] then pca_loop (res ++ [' ']) true rest
      else pca_loop res prev_space rest
    else pca_loop (res ++ [c]) false rest

def process_class_attribute (value : List Char) : List Char :=
  pca_loop [] false value

/-- Boolean contiguous-substring test (Rust `str::contains`). -/
def contains_seq (pat : List Char) : List Char → Bool
  | [] => pat.isEmpty
  | c :: rest => pat.isPrefixOf (c :: rest) || contains_seq pat rest

/-- `process_attribute_value_cow`. -/
def process_attribute_value_cow (key value : List Char) : List Char :=
  if key = ("style").toList then process_style_attribute value
  else if key = ("class").toList ∧ contains_seq [' ', ' '] value then
    process_class_attribute value
  else value

/-- `extract_attribute_value`: strips one layer of matching quotes. -/
def extract_attribute_value (raw_value : List Char) : List Char :=
  if raw_value.length ≥ 2 ∧
      ((raw_value.head? = some '"' ∧ raw_value.getLast? = some '"') ∨
        (raw_value.head? = some '\'' ∧ raw_value.getLast? = some '\'')) then
    (raw_value.drop 1).dropLast
  else raw_value

/-- `should_skip_attribute`. -/
def should_skip_attribute (key value current_tag : List Char) : Bool :=
  if is_boolean_attribute key then false
  else if value = [] ∧
      (is_empty_removable key ∨
        key ∈ [("type").toList, ("value").toList, ("alt").toList, ("title").toList]) then
    true
  else has_default_value current_tag key value

/-- `append_attribute_value`: bare when quote removal applies, else
wrapped in double quotes. -/
def append_attribute_value (res key value : List Char) (options : MinifierOptions) :
    List Char :=
  let processed_value := process_attribute_value_cow key value
  if options.remove_attribute_quotes ∧ should_remove_quotes processed_value then
    res ++ processed_value
  else res ++ ['"'] ++ processed_value ++ ['"']

/-- Rust `str::split_once`: split at the first occurrence of a char. -/
def split_once_char (sep : Char) : List Char → Option (List Char × List Char)
  | [] => none
  | c :: rest =>
    if c = sep then some ([], rest)
    else
      match split_once_char sep rest with
      | some p => some (c :: p.1, p.2)
      | none => none

/-- `process_attribute`: the per-attribute pipeline of the driver. -/
def process_attribute (res attr current_tag : List Char) (options : MinifierOptions) :
    List Char :=
  let clean_attr := trim_ws attr
  if clean_attr = [] then res
  else
    match split_once_char '=' clean_attr with
    | some kv =>
      let key := ascii_lower (trim_ws kv.1)
      let raw_value := trim_ws kv.2
      let value := extract_attribute_value raw_value
      if options.collapse_boolean_attributes ∧ is_boolean_attribute key then
        res ++ [' '] ++ key
      else if options.remove_empty_attributes ∧ value = [] ∧ is_empty_removable key then
        res
      else if options.remove_default_attributes ∧
          should_skip_attribute key value current_tag then
        res
      else append_attribute_value (res ++ [' '] ++ key ++ ['=']) key value options
    | none =>
      let key := ascii_lower clean_attr
      if options.remove_empty_attributes ∧ is_empty_removable key then res
      else res ++ [' '] ++ key

/-- `skip_following_whitespace` in the final spacing pass. -/
def skip_following_whitespace (cs : List Char) : List Char :=
  cs.dropWhile rust_is_whitespace

/-- The space-popping in `handle_equals_sign` (`while ends_with ' ' pop`). -/
def drop_trailing_spaces (s : List Char) : List Char :=
  (s.reverse.dropWhile (· = ' ')).reverse

/-- Main loop of `cleanup_html_spacing`: `>` flushes the following
whitespace run; a whitespace char whose immediate successor is `<` is
dropped; any other whitespace run collapses to one space; `=` pops
buffered spaces and skips following spaces. -/
def cleanup_loop : Nat → List Char → List Char → Option (List Char)
  | 0, _, _ => none
  | _ + 1, cleaned, [] => some cleaned
  | f + 1, cleaned, ch :: rest =>
    if ch = '>' then cleanup_loop f (cleaned ++ ['>']) (skip_following_whitespace rest)
    else if rust_is_whitespace ch then
      if rest.head? = some '<' then cleanup_loop f cleaned rest
      else
        let c2 := if ¬ends_with cleaned [' '] then cleaned ++ [' '] else cleaned
        cleanup_loop f c2 (skip_following_whitespace rest)
    else if ch = '=' then
      cleanup_loop f (drop_trailing_spaces cleaned ++ ['=']) (rest.dropWhile (· = ' '))
    else cleanup_loop f (cleaned ++ [ch]) rest

/-- `cleanup_html_spacing`: run the loop, then trim both ends. -/
def cleanup_html_spacing (html : List Char) : List Char :=
  match cleanup_loop (html.length + 1) [] html with
  | none => []
  | some cleaned => trim_ws cleaned

/-! ## HTML driver (`src/html/processor.rs`) -/

/-- `handle_text_node`: style/script bodies are delegated to the CSS/JS
minifiers, raw-text content is verbatim, and otherwise whitespace is
collapsed when the option is on. -/
def handle_text_node (res content : List Char) (ctx : MinifierContext) : List Char :=
  if ctx.in_style_tag ∧ ctx.options.minify_css then res ++ minify_css content
  else if ctx.in_script_tag ∧ ctx.options.minify_js then res ++ minify_javascript content
  else if ctx.in_pre_tag ∨ ¬ctx.options.collapse_whitespace then res ++ content
  else if ctx.options.collapse_whitespace then append_collapsed_whitespace res content
  else res ++ content

/-- `is_conditional_comment`. -/
def is_conditional_comment (comment : List Char) : Bool :=
  (("[if ").toList).isPrefixOf comment || (("[endif").toList).isPrefixOf comment

/-- `handle_token`: one step of the driver, returning the extended output
and the updated context. -/
def handle_token (res : List Char) (tok : Tok) (ctx : MinifierContext) :
    List Char × MinifierContext :=
  match tok with
  | .Doctype content => (res ++ ascii_lower content, ctx)
  | .Comment comment_text =>
    if ctx.options.preserve_conditional_comments ∧ is_conditional_comment comment_text then
      (res ++ ("<!--").toList ++ comment_text ++ ("-->").toList, ctx)
    else if ¬ctx.options.remove_comments then
      (res ++ ("<!--").toList ++ comment_text ++ ("-->").toList, ctx)
    else (res, ctx)
  | .Cdata content => (res ++ ("<![CDATA[").toList ++ content ++ ("]]>").toList, ctx)
  | .TagOpenStart tag_name =>
    let c2 := update_for_open_tag ctx tag_name
    (res ++ ['<'] ++ c2.current_tag, c2)
  | .Attribute attr => (process_attribute res attr ctx.current_tag ctx.options, ctx)
  | .TagOpenEnd => (res ++ ['>'], ctx)
  | .TagSelfClose =>
    if is_singleton_element ctx.current_tag then (res ++ ['>'], ctx)
    else (res ++ ("/>").toList, ctx)
  | .TagClose tag_name =>
    let tag_lower := ascii_lower tag_name
    let res2 :=
      if ¬ctx.options.remove_optional_tags ∨ ¬is_close_optional tag_lower then
        res ++ ("</").toList ++ tag_lower ++ ['>']
      else res
    (res2, update_for_close_tag ctx tag_name)
  | .TextNode content => (handle_text_node res content ctx, ctx)

/-- The token-consuming loop of `minify_html_with_options`. -/
def process_tokens : Nat → TokState → MinifierContext → List Char → Option (List Char)
  | 0, _, _, _ => none
  | f + 1, st, ctx, res =>
    match next_token st with
    | none => some res
    | some p =>
      let q := handle_token res p.1 ctx
      process_tokens f p.2 q.2 q.1

/-- `minify_html_with_options`: tokenize and process, then run the final
spacing pass when whitespace collapsing is on. -/
def minify_html_with_options (html : List Char) (options : MinifierOptions) : List Char :=
  match process_tokens (html.length + 1) ⟨html, false⟩ (MinifierContext.new options) [] with
  | none => []
  | some res => if options.collapse_whitespace then cleanup_html_spacing res else res

/-- `minify_html_tokens`: default options. -/
def minify_html_tokens (html : List Char) : List Char :=
  minify_html_with_options html default_options

/-- The conservative preset with empty-attribute removal switched on and
nothing else: isolates the `remove_empty_attributes` toggle. -/
def empty_only_options : MinifierOptions :=
  { remove_comments := false
    collapse_whitespace := false
    remove_optional_tags := false
    remove_attribute_quotes := false
    collapse_boolean_attributes := false
    remove_default_attributes := false
    remove_empty_attributes := true
    minify_js := false
    minify_css := false
    preserve_conditional_comments := false }

/-- Default options with comment removal and whitespace collapsing off:
the configuration under which comment-like constructs are kept. -/
def keep_comments_options : MinifierOptions :=
  { default_options with remove_comments := false, collapse_whitespace := false }

/-- Default options with whitespace collapsing off: the configuration in
which the final spacing pass does not run. -/
def no_collapse_options : MinifierOptions :=
  { default_options with collapse_whitespace := false }

/-!
## Sanity checks

Each equation below reproduces one of the repository's own unit tests
(`tests/html_test.rs`, `tests/css_test.rs`, `tests/javascript_test.rs`)
or doc examples, evaluated through the embedding.
-/

example :
    minify_css (("body \x7b  color: red;  margin: 0;  \x7d").toList) =
      ("body\x7bcolor:red;margin:0\x7d").toList := by decide

example :
    minify_javascript (("let pattern = /test/g;").toList) =
      ("let pattern=/test/g;").toList := by decide

example :
    minify_javascript (("(a + b) / c").toList) = ("(a+b)/c").toList := by decide

example :
    minify_javascript (("function test() \x7b  return 42;  \x7d").toList) =
      ("function test()\x7breturn 42;\x7d").toList := by decide

example :
    minify_javascript (("return /pattern/i;").toList) =
      ("return/pattern/i;").toList := by decide

example :
    minify_html_tokens (("<pre>  multiple   spaces  </pre>").toList) =
      ("<pre>multiple spaces </pre>").toList := by decide

example :
    minify_html_tokens (("<div>  <p>  Hello World  </p>  </div>").toList) =
      ("<div><p>Hello World</div>").toList := by decide

example :
    minify_html_tokens (("<div class=\"container\" id=\"main\">Content</div>").toList) =
      ("<div class=container id=main>Content</div>").toList := by decide

example :
    minify_html_tokens (("<script type=\"text/javascript\">alert('hi');</script>").toList) =
      ("<script>alert('hi');</script>").toList := by decide

example :
    minify_html_tokens (("<input type=\"checkbox\" checked=\"checked\">").toList) =
      ("<input type=checkbox checked>").toList := by decide

example :
    minify_html_tokens (("<ul><li>Item 1</li><li>Item 2</li></ul>").toList) =
      ("<ul><li>Item 1<li>Item 2</ul>").toList := by decide

/-!
## Termination of the fueled loops

Every handler returns a suffix of its input, so each main-loop iteration
consumes at least one input char; fuel `length + 1` therefore never runs
out.
-/

theorem length_dropWhile_le (p : Char → Bool) (l : List Char) :
    (l.dropWhile p).length ≤ l.length := by
  induction l with
  | nil => simp
  | cons c rest ih =>
    by_cases h : p c
    · simp only [List.dropWhile, h]
      exact Nat.le_succ_of_le ih
    · simp [List.dropWhile, h]

theorem css_string_literal_loop_rest_le (res : List Char) (q : Char) (cs : List Char) :
    (css_string_literal_loop res q cs).2.length ≤ cs.length := by
  induction res, q, cs using css_string_literal_loop.induct
  all_goals rw [css_string_literal_loop.eq_def]
  all_goals simp_all
  all_goals omega

theorem handle_css_string_literal_rest_le (res : List Char) (q : Char) (cs : List Char) :
    (handle_css_string_literal res q cs).2.length ≤ cs.length := by
  unfold handle_css_string_literal
  exact css_string_literal_loop_rest_le _ _ _

theorem skip_block_comment_le (prev : Char) (cs : List Char) :
    (skip_block_comment prev cs).length ≤ cs.length := by
  induction prev, cs using skip_block_comment.induct with
  | case1 prev => simp [skip_block_comment]
  | case2 prev c rest h => simp [skip_block_comment, h]
  | case3 prev c rest h ih =>
    rw [skip_block_comment.eq_def]
    simp only [h, if_false]
    exact Nat.le_succ_of_le ih

theorem handle_css_comment_rest_le (cs r : List Char) (h : handle_css_comment cs = some r) :
    r.length ≤ cs.length := by
  unfold handle_css_comment at h
  split at h
  next rest =>
    obtain rfl := Option.some.inj h
    simpa using Nat.le_succ_of_le (skip_block_comment_le ' ' rest)
  next => simp at h

theorem handle_css_whitespace_rest_le (res : List Char) (lc : Char) (cs : List Char) :
    (handle_css_whitespace res lc cs).2.length ≤ cs.length := by
  simp only [handle_css_whitespace]
  exact length_dropWhile_le _ _

theorem minify_css_loop_isSome :
    ∀ (f : Nat) (res : List Char) (lc : Char) (cs : List Char), cs.length < f →
      (minify_css_loop f res lc cs).isSome := by
  intro f
  induction f with
  | zero => intro _ _ _ h; omega
  | succ f ih =>
    intro res lc cs h
    match cs with
    | [] => simp [minify_css_loop]
    | ch :: rest =>
      have hr : rest.length < f := by simpa using Nat.lt_of_succ_lt_succ h
      rw [minify_css_loop]
      split_ifs
      all_goals
        first
        | exact ih _ _ _ hr
        | exact ih _ _ _ (Nat.lt_of_le_of_lt (handle_css_string_literal_rest_le _ _ _) hr)
        | exact ih _ _ _ (Nat.lt_of_le_of_lt (handle_css_whitespace_rest_le _ _ _) hr)
        | (cases hc : handle_css_comment rest with
           | none => simpa [hc] using ih _ _ _ hr
           | some r2 =>
             simp only [hc]
             exact ih _ _ _ (Nat.lt_of_le_of_lt (handle_css_comment_rest_le _ _ hc) hr))

theorem js_string_literal_loop_rest_le (res : List Char) (q : Char) (cs : List Char) :
    (js_string_literal_loop res q cs).2.length ≤ cs.length := by
  induction res, q, cs using js_string_literal_loop.induct
  all_goals rw [js_string_literal_loop.eq_def]
  all_goals simp_all
  all_goals omega

theorem handle_js_string_literal_rest_le (res : List Char) (q : Char) (cs : List Char) :
    (handle_js_string_literal res q cs).2.length ≤ cs.length := by
  unfold handle_js_string_literal
  exact js_string_literal_loop_rest_le _ _ _

theorem js_template_loop_rest_le (res : List Char) (depth : Nat) (cs : List Char) :
    (js_template_loop res depth cs).2.length ≤ cs.length := by
  induction res, depth, cs using js_template_loop.induct
  all_goals rw [js_template_loop.eq_def]
  all_goals try simp_all
  all_goals try split_ifs
  all_goals try simp_all
  all_goals omega

theorem handle_js_template_literal_rest_le (res : List Char) (cs : List Char) :
    (handle_js_template_literal res cs).2.length ≤ cs.length := by
  unfold handle_js_template_literal
  exact js_template_loop_rest_le _ _ _

theorem js_regex_flags_rest_le (res : List Char) (cs : List Char) :
    (js_regex_flags res cs).2.length ≤ cs.length := by
  induction res, cs using js_regex_flags.induct
  all_goals rw [js_regex_flags.eq_def]
  all_goals simp_all
  all_goals omega

theorem js_regex_loop_rest_le (res : List Char) (b : Bool) (cs : List Char) :
    (js_regex_loop res b cs).2.length ≤ cs.length := by
  induction res, b, cs using js_regex_loop.induct
  all_goals rw [js_regex_loop.eq_def]
  all_goals try simp_all
  all_goals try split_ifs
  all_goals try simp_all
  all_goals try omega
  all_goals exact Nat.le_succ_of_le (js_regex_flags_rest_le _ _)

theorem handle_js_regex_rest_le (res : List Char) (cs : List Char) :
    (handle_js_regex res cs).2.length ≤ cs.length := by
  unfold handle_js_regex
  exact js_regex_loop_rest_le _ _ _

theorem js_line_comment_le (cs : List Char) : (js_line_comment cs).length ≤ cs.length := by
  induction cs using js_line_comment.induct
  all_goals rw [js_line_comment.eq_def]
  all_goals simp_all
  all_goals omega

theorem handle_js_comment_rest_le (cs r : List Char) (h : handle_js_comment cs = some r) :
    r.length ≤ cs.length := by
  unfold handle_js_comment at h
  split at h
  next rest =>
    obtain rfl := Option.some.inj h
    simpa using Nat.le_succ_of_le (js_line_comment_le rest)
  next rest =>
    obtain rfl := Option.some.inj h
    simpa using Nat.le_succ_of_le (skip_block_comment_le ' ' rest)
  next => simp at h

theorem handle_js_whitespace_rest_le (res : List Char) (cs : List Char) :
    (handle_js_whitespace res cs).2.length ≤ cs.length := by
  simp only [handle_js_whitespace]
  exact length_dropWhile_le _ _

theorem minify_javascript_loop_isSome :
    ∀ (f : Nat) (res cs : List Char), cs.length < f →
      (minify_javascript_loop f res cs).isSome := by
  intro f
  induction f with
  | zero => intro _ _ h; omega
  | succ f ih =>
    intro res cs h
    match cs with
    | [] => simp [minify_javascript_loop]
    | ch :: rest =>
      have hr : rest.length < f := by simpa using Nat.lt_of_succ_lt_succ h
      rw [minify_javascript_loop]
      split_ifs
      all_goals
        first
        | exact ih _ _ hr
        | exact ih _ _ (Nat.lt_of_le_of_lt (handle_js_string_literal_rest_le _ _ _) hr)
        | exact ih _ _ (Nat.lt_of_le_of_lt (handle_js_template_literal_rest_le _ _) hr)
        | exact ih _ _ (Nat.lt_of_le_of_lt (handle_js_whitespace_rest_le _ _) hr)
        | (cases hc : handle_js_comment rest with
           | none =>
             simp only [hc]
             first
             | exact ih _ _ (Nat.lt_of_le_of_lt (handle_js_regex_rest_le _ _) hr)
             | exact ih _ _ hr
           | some r2 =>
             simp only [hc]
             exact ih _ _ (Nat.lt_of_le_of_lt (handle_js_comment_rest_le _ _ hc) hr))

theorem length_drop_le (n : Nat) (l : List Char) : (l.drop n).length ≤ l.length := by
  rw [List.length_drop]
  omega

theorem consume_until_seq_rest_le (d : List Char) (cs : List Char) :
    (consume_until_seq d cs).2.length ≤ cs.length := by
  induction cs with
  | nil => simp [consume_until_seq]
  | cons c rest ih =>
    rw [consume_until_seq.eq_def]
    by_cases hp : d.isPrefixOf (c :: rest)
    · simp only [hp, if_true]
      exact length_drop_le _ _
    · simp only [hp, if_false]
      exact Nat.le_succ_of_le ih

theorem attr_name_rest_le (cs : List Char) : (attr_name_rest cs).2.length ≤ cs.length := by
  induction cs using attr_name_rest.induct
  all_goals rw [attr_name_rest.eq_def]
  all_goals simp_all
  all_goals omega

theorem consume_quoted_rest_le (q : Char) (cs : List Char) :
    (consume_quoted_rest q cs).length ≤ cs.length := by
  induction cs with
  | nil => simp [consume_quoted_rest]
  | cons c rest ih =>
    rw [consume_quoted_rest.eq_def]
    by_cases hc : c = q
    · simp [hc]
    · simp only [hc, if_false]
      exact Nat.le_succ_of_le ih

theorem consume_attribute_rest_lt (cs : List Char) (pr : List Char × List Char)
    (h : consume_attribute cs = some pr) : pr.2.length < cs.length := by
  have hws : (skip_ascii_ws cs).length ≤ cs.length := length_dropWhile_le _ _
  unfold consume_attribute at h
  split at h
  · exact absurd h (by simp)
  · next c tail heq =>
    rw [heq] at hws
    by_cases h1 : c = '>'
    · simp [h1] at h
    · simp only [h1, if_false] at h
      split at h
      · next h2 =>
        obtain rfl := Option.some.inj h
        exact Nat.lt_of_lt_of_le h2 hws
      · exact absurd h (by simp)

theorem dropWhile_length_lt (p : Char → Bool) (c : Char) (rest : List Char)
    (h : p c = true) : ((c :: rest).dropWhile p).length < (c :: rest).length := by
  simp only [List.dropWhile, h]
  exact Nat.lt_succ_of_le (length_dropWhile_le p rest)

theorem consume_until_byte_snd (b : Char) (cs : List Char) :
    (consume_until_byte b cs).2 = cs.dropWhile (· ≠ b) := rfl

theorem consume_until_byte_cons_tail_lt (b : Char) (cs content : List Char) (c : Char)
    (rest : List Char) (h : consume_until_byte b cs = (content, c :: rest)) :
    rest.length < cs.length := by
  have h2 : cs.dropWhile (· ≠ b) = c :: rest := by
    rw [← consume_until_byte_snd b cs, h]
  have := length_dropWhile_le (fun x => x ≠ b) cs
  rw [h2] at this
  simpa using this

theorem consume_until_byte_snd_le (b : Char) (cs : List Char) (content rest : List Char)
    (h : consume_until_byte b cs = (content, rest)) : rest.length ≤ cs.length := by
  have h2 : cs.dropWhile (· ≠ b) = rest := by
    rw [← consume_until_byte_snd b cs, h]
  have := length_dropWhile_le (fun x => x ≠ b) cs
  rw [h2] at this
  exact this

theorem parse_special_tag_rest_le (r2 : List Char) (pr : Tok × TokState)
    (h : parse_special_tag r2 = some pr) : pr.2.rest.length ≤ r2.length := by
  unfold parse_special_tag at h
  split_ifs at h
  · obtain rfl := Option.some.inj h
    exact Nat.le_trans (consume_until_seq_rest_le _ _) (length_drop_le _ _)
  · split at h
    all_goals obtain rfl := Option.some.inj h
    · next content r3 heq =>
      exact Nat.le_of_lt (consume_until_byte_cons_tail_lt '>' r2 content '>' r3 heq)
    · next content rest _ heq =>
      exact consume_until_byte_snd_le '>' r2 content rest heq
  · obtain rfl := Option.some.inj h
    exact Nat.le_trans (consume_until_seq_rest_le _ _) (length_drop_le _ _)
  · split at h
    all_goals obtain rfl := Option.some.inj h
    · next content r3 heq =>
      exact Nat.le_of_lt (consume_until_byte_cons_tail_lt '>' r2 content '>' r3 heq)
    · next content rest _ heq =>
      exact consume_until_byte_snd_le '>' r2 content rest heq

theorem parse_close_tag_rest_le (r2 : List Char) (pr : Tok × TokState)
    (h : parse_close_tag r2 = some pr) : pr.2.rest.length ≤ r2.length := by
  unfold parse_close_tag at h
  split at h
  all_goals obtain rfl := Option.some.inj h
  · next tag_name r3 heq =>
    exact Nat.le_of_lt (consume_until_byte_cons_tail_lt '>' r2 tag_name '>' r3 heq)
  · next tag_name rest _ heq =>
    exact consume_until_byte_snd_le '>' r2 tag_name rest heq

theorem parse_tag_rest_le (r : List Char) (pr : Tok × TokState)
    (h : parse_tag r = some pr) : pr.2.rest.length ≤ r.length := by
  unfold parse_tag at h
  split at h
  · exact absurd h (by simp)
  · next r2 =>
    exact Nat.le_succ_of_le (parse_special_tag_rest_le r2 pr h)
  · next r2 =>
    exact Nat.le_succ_of_le (parse_close_tag_rest_le r2 pr h)
  · unfold parse_open_tag at h
    obtain rfl := Option.some.inj h
    exact length_dropWhile_le _ _

theorem parse_text_node_rest_lt (cs : List Char) (pr : Tok × TokState)
    (h : parse_text_node cs = some pr) : pr.2.rest.length < cs.length := by
  unfold parse_text_node at h
  split at h
  · exact absurd h (by simp)
  · next txt rest hne_nil heq =>
    obtain rfl := Option.some.inj h
    show rest.length < cs.length
    have h1 : cs.takeWhile (· ≠ '<') = txt := congrArg Prod.fst heq
    have h2 : cs.dropWhile (· ≠ '<') = rest := by
      rw [← consume_until_byte_snd '<' cs, heq]
    have hlen : txt.length + rest.length = cs.length := by
      rw [← h1, ← h2, ← List.length_append, List.takeWhile_append_dropWhile]
    have : 0 < txt.length := List.length_pos.mpr hne_nil
    omega

theorem parse_non_tag_rest_lt (cs : List Char) (pr : Tok × TokState)
    (h : parse_non_tag cs = some pr) : pr.2.rest.length < cs.length := by
  unfold parse_non_tag at h
  split at h
  · next r => exact Nat.lt_succ_of_le (parse_tag_rest_le r pr h)
  · exact parse_text_node_rest_lt cs pr h

theorem next_token_progress (st : TokState) (pr : Tok × TokState)
    (h : next_token st = some pr) : pr.2.rest.length < st.rest.length := by
  unfold next_token at h
  have hws : (skip_ascii_ws st.rest).length ≤ st.rest.length := length_dropWhile_le _ _
  split at h
  · exact absurd h (by simp)
  · next c rest heq =>
    rw [heq] at hws
    split_ifs at h with htag hgt hsc
    · obtain rfl := Option.some.inj h
      exact Nat.lt_of_lt_of_le (by simp) hws
    · obtain rfl := Option.some.inj h
      have h1 : (rest.drop 1).length ≤ rest.length := length_drop_le _ _
      have h2 : rest.length < (c :: rest).length := by simp
      exact Nat.lt_of_le_of_lt h1 (Nat.lt_of_lt_of_le h2 hws)
    · split at h
      · next p hp =>
        obtain rfl := Option.some.inj h
        exact Nat.lt_of_lt_of_le (consume_attribute_rest_lt _ _ hp) hws
      · exact Nat.lt_of_lt_of_le (parse_non_tag_rest_lt _ _ h) hws
    · exact Nat.lt_of_lt_of_le (parse_non_tag_rest_lt _ _ h) hws

theorem process_tokens_isSome :
    ∀ (f : Nat) (st : TokState) (ctx : MinifierContext) (res : List Char),
      st.rest.length < f → (process_tokens f st ctx res).isSome := by
  intro f
  induction f with
  | zero => intro _ _ _ h; omega
  | succ f ih =>
    intro st ctx res h
    rw [process_tokens]
    cases hnt : next_token st with
    | none => simp
    | some p =>
      simp only []
      exact ih _ _ _
        (Nat.lt_of_lt_of_le (next_token_progress st p hnt) (Nat.le_of_lt_succ h))

theorem cleanup_loop_isSome :
    ∀ (f : Nat) (res cs : List Char), cs.length < f → (cleanup_loop f res cs).isSome := by
  intro f
  induction f with
  | zero => intro _ _ h; omega
  | succ f ih =>
    intro res cs h
    match cs with
    | [] => simp [cleanup_loop]
    | ch :: rest =>
      have hr : rest.length < f := by simpa using Nat.lt_of_succ_lt_succ h
      rw [cleanup_loop]
      split_ifs
      all_goals
        first
        | exact ih _ _ hr
        | exact ih _ _ (Nat.lt_of_le_of_lt (length_dropWhile_le _ _) hr)

/-!
## Helper lemmas shared by the claim theorems
-/

theorem ends_with_concat2 (t : List Char) (x y : Char) (h : ends_with t [x, y] = true) :
    t.getLast? = some y ∧ t.dropLast.getLast? = some x := by
  rw [ends_with, List.isSuffixOf_iff_suffix] at h
  obtain ⟨pre, rfl⟩ := h
  constructor
  · rw [show pre ++ [x, y] = (pre ++ [x]) ++ [y] by simp]
    exact List.getLast?_concat _
  · rw [show pre ++ [x, y] = (pre ++ [x]) ++ [y] by simp, List.dropLast_concat]
    exact List.getLast?_concat _

theorem utf8Len_pos (c : Char) : 1 ≤ utf8Len c := by
  unfold utf8Len
  split_ifs <;> omega

theorem byte_len_cons (c : Char) (l : List Char) :
    byte_len (c :: l) = utf8Len c + byte_len l := by
  simp [byte_len]

theorem byte_len_pos (l : List Char) (h : l ≠ []) : 1 ≤ byte_len l := by
  match l with
  | c :: rest =>
    rw [byte_len_cons]
    have := utf8Len_pos c
    omega

theorem byte_len_concat (l : List Char) (c : Char) :
    byte_len (l ++ [c]) = byte_len l + utf8Len c := by
  simp [byte_len]

theorem getLast?_none_of_eq_nil (l : List Char) (h : l = []) : l.getLast? = none := by
  simp [h]

theorem count_dropLast_of_getLast_space (res : List Char) (h : res.getLast? = some ' ') :
    res.dropLast.count ';' = res.count ';' := by
  have hne : res ≠ [] := by
    intro hx
    rw [hx] at h
    simp at h
  have hlast : res.getLast hne = ' ' := by
    have := List.getLast?_eq_getLast res hne
    rw [h] at this
    exact (Option.some.inj this).symm
  conv_rhs => rw [← List.dropLast_append_getLast hne]
  rw [List.count_append, hlast]
  simp

/-!
## Claim theorems
-/

/-- C3: minify_html_with_options, minify_css and minify_javascript are
total: each top-level loop (token processing, the CSS and JS character
loops, and the final spacing pass) completes — returns `some` — at the
fuel `input length + 1` its wrapper supplies, for every input and every
option configuration, malformed or not. -/
theorem spec_c3_totality :
    (∀ (html : List Char) (opts : MinifierOptions),
        (process_tokens (html.length + 1) ⟨html, false⟩ (MinifierContext.new opts) []).isSome) ∧
    (∀ cs : List Char, (minify_css_loop (cs.length + 1) [] (Char.ofNat 0) cs).isSome) ∧
    (∀ cs : List Char, (minify_javascript_loop (cs.length + 1) [] cs).isSome) ∧
    (∀ s : List Char, (cleanup_loop (s.length + 1) [] s).isSome) := by
  refine ⟨fun html opts => ?_, fun cs => ?_, fun cs => ?_, fun s => ?_⟩
  · exact process_tokens_isSome _ _ _ _ (Nat.lt_succ_self _)
  · exact minify_css_loop_isSome _ _ _ _ (Nat.lt_succ_self _)
  · exact minify_javascript_loop_isSome _ _ _ (Nat.lt_succ_self _)
  · exact cleanup_loop_isSome _ _ _ (Nat.lt_succ_self _)

/-- C10: after `update_for_open_tag` with name `t`, the three context
flags and the current tag are functions of `t` alone — `in_pre_tag` holds
exactly for lowercased `pre`/`code`/`textarea`, `in_script_tag` for
`script`, `in_style_tag` for `style` — regardless of the prior state, so
opening any other element clears all three flags. -/
theorem spec_c10_open_tag_flags :
    ∀ (ctx : MinifierContext) (t : List Char),
      ((update_for_open_tag ctx t).in_pre_tag = true ↔
        (ascii_lower t = ("pre").toList ∨ ascii_lower t = ("code").toList ∨
          ascii_lower t = ("textarea").toList)) ∧
      ((update_for_open_tag ctx t).in_script_tag = true ↔ ascii_lower t = ("script").toList) ∧
      ((update_for_open_tag ctx t).in_style_tag = true ↔ ascii_lower t = ("style").toList) ∧
      (update_for_open_tag ctx t).current_tag = ascii_lower t := by
  intro ctx t
  refine ⟨?_, ?_, ?_, rfl⟩ <;> simp [update_for_open_tag]

/-- C8: a close tag is elided exactly when optional-closing-tag removal
is on and the exact lowercased name is in the optional-close set; the set
is matched as a whole token (`p` is a member, `path` is not), so
minifying `<p>Text</p><path></path>` with default options drops `</p>`
but keeps `</path>`. -/
theorem spec_c8_close_tag_whole_token :
    (∀ (res : List Char) (ctx : MinifierContext) (name : List Char),
        handle_token res (.TagClose name) ctx =
          (if ctx.options.remove_optional_tags ∧ is_close_optional (ascii_lower name) then res
            else res ++ ("</").toList ++ ascii_lower name ++ ['>'],
            update_for_close_tag ctx name)) ∧
    is_close_optional (("p").toList) = true ∧
    is_close_optional (("path").toList) = false ∧
    minify_html_tokens (("<p>Text</p><path></path>").toList) =
      ("<p>Text<path></path>").toList := by
  refine ⟨?_, by decide, by decide, by decide⟩
  intro res ctx name
  by_cases h1 : ctx.options.remove_optional_tags = true
  · by_cases h2 : is_close_optional (ascii_lower name) = true
    · simp [handle_token, h1, h2]
    · simp [handle_token, h1, h2]
  · simp [handle_token, h1]

/-- C9: the claim says a whitespace run between two identifier chars
collapses to one space.  The code checks the char after the first
whitespace char of the run, so only runs of length one get the space: a
run of two spaces between identifiers is dropped entirely and the
identifiers are merged (`a  b` becomes `ab`, while `a b` stays `a b`). -/
theorem spec_c9_two_space_run_merges :
    minify_javascript (("a b").toList) = ("a b").toList ∧
    minify_javascript (("a  b").toList) = ("ab").toList := by
  exact ⟨by decide, by decide⟩

/-- C1 counterexample: with default options (collapse_whitespace on) the
interior two-space run inside `<pre>a  b</pre>` collapses to one space in
the final output, so the whitespace of `pre` text is not preserved
verbatim: the run `a  b` no longer occurs in the result. -/
theorem spec_c1_counterexample :
    minify_html_tokens (("<pre>a  b</pre>").toList) = ("<pre>a b</pre>").toList ∧
    contains_seq (("a  b").toList) (minify_html_tokens (("<pre>a  b</pre>").toList)) = false := by
  exact ⟨by decide, by decide⟩

/-- C1 amended: the driver emits text inside `pre`/`code`/`textarea`
verbatim at the token level, but when collapse_whitespace is enabled the
final spacing pass still collapses interior runs (see the
counterexample); interior whitespace survives end-to-end only when
collapse_whitespace is disabled, and the tokenizer always strips
whitespace preceding a text node. -/
theorem spec_c1_pre_verbatim_token_level :
    (∀ (res content : List Char) (ctx : MinifierContext),
        ctx.in_pre_tag = true → ctx.in_style_tag = false → ctx.in_script_tag = false →
        handle_text_node res content ctx = res ++ content) ∧
    minify_html_with_options (("<pre>a  b</pre>").toList) no_collapse_options =
      ("<pre>a  b</pre>").toList := by
  refine ⟨?_, by decide⟩
  intro res content ctx h1 h2 h3
  simp [handle_text_node, h1, h2, h3]

/-- Witness for the amended C1 theorem at a concrete raw-text context. -/
theorem spec_c1_pre_verbatim_token_level_witness :
    handle_text_node (("x").toList) (("a  b").toList)
      { in_pre_tag := true, in_script_tag := false, in_style_tag := false,
        current_tag := ("pre").toList, options := default_options } =
      ("x").toList ++ ("a  b").toList :=
  spec_c1_pre_verbatim_token_level.1 (("x").toList) (("a  b").toList) _ rfl rfl rfl

/-- C4 counterexample: with empty-attribute removal enabled alone, the
empty-valued attribute `alt=""` is NOT dropped (`alt` is one of the
"extra" names, which `process_attribute` only consults through
`should_skip_attribute` under `remove_default_attributes`): the output
still carries ` alt=""`. -/
theorem spec_c4_counterexample :
    process_attribute [] (("alt=\"\"").toList) (("img").toList) empty_only_options =
      (" alt=\"\"").toList ∧
    process_attribute [] (("alt=\"\"").toList) (("img").toList) empty_only_options ≠ [] := by
  exact ⟨by decide, by decide⟩

/-- C4 amended: under `remove_empty_attributes` alone, an empty-valued
`name=value` attribute is dropped exactly for names in the
`EMPTY_REMOVABLE_ATTRIBUTES` set (boolean collapsing not applying); the
extra names `type`/`value`/`alt`/`title` are dropped for empty values
only via `should_skip_attribute`, which requires
`remove_default_attributes`. -/
theorem spec_c4_empty_attribute_removal :
    (∀ (res attr current_tag : List Char) (opts : MinifierOptions) (k r : List Char),
        split_once_char '=' (trim_ws attr) = some (k, r) →
        opts.remove_empty_attributes = true →
        extract_attribute_value (trim_ws r) = [] →
        is_empty_removable (ascii_lower (trim_ws k)) = true →
        ¬(opts.collapse_boolean_attributes = true ∧
            is_boolean_attribute (ascii_lower (trim_ws k)) = true) →
        process_attribute res attr current_tag opts = res) ∧
    (∀ (res attr current_tag : List Char) (opts : MinifierOptions) (k r : List Char),
        split_once_char '=' (trim_ws attr) = some (k, r) →
        opts.remove_default_attributes = true →
        extract_attribute_value (trim_ws r) = [] →
        (is_empty_removable (ascii_lower (trim_ws k)) = true ∨
          ascii_lower (trim_ws k) ∈
            [("type").toList, ("value").toList, ("alt").toList, ("title").toList]) →
        is_boolean_attribute (ascii_lower (trim_ws k)) = false →
        process_attribute res attr current_tag opts = res) := by
  constructor
  · intro res attr current_tag opts k r hsplit hre hval hrem hnb
    have hne : ¬(trim_ws attr = []) := by
      intro hx
      rw [hx] at hsplit
      simp [split_once_char] at hsplit
    unfold process_attribute
    simp only [hne, if_false, hsplit, hval, hre]
    split_ifs with hb hdef
    · rfl
    · rfl
    · exact absurd ⟨trivial, trivial, hrem⟩ hb
  · intro res attr current_tag opts k r hsplit hrd hval hrem hnb
    have hne : ¬(trim_ws attr = []) := by
      intro hx
      rw [hx] at hsplit
      simp [split_once_char] at hsplit
    have hskip : should_skip_attribute (ascii_lower (trim_ws k))
        (extract_attribute_value (trim_ws r)) current_tag = true := by
      rw [hval]
      unfold should_skip_attribute
      rw [hnb]
      simp only [Bool.false_eq_true, if_false]
      rcases hrem with h | h
      · simp [h]
      · simp only [true_and, if_true]
        simp at h
        rcases h with h | h | h | h <;> simp [h]
    unfold process_attribute
    simp only [hne, if_false, hsplit]
    split_ifs with hb hempty hdef
    · exact absurd hb.2 (by simp [hnb])
    · rfl
    · rfl
    · exact absurd ⟨hrd, hskip⟩ hdef

/-- Witness for the amended C4 theorem: `id=""` is dropped under
empty-attribute removal alone. -/
theorem spec_c4_empty_attribute_removal_witness :
    process_attribute [] (("id=\"\"").toList) (("div").toList) empty_only_options = [] :=
  spec_c4_empty_attribute_removal.1 [] (("id=\"\"").toList) (("div").toList)
    empty_only_options (("id").toList) (("\"\"").toList)
    (by decide) (by decide) (by decide) (by decide) (by decide)

/-- C5 counterexample: with comment removal disabled, the non-comment
construct `<!foo>` is not passed through unchanged — it is re-emitted
wrapped in comment markers as `<!--<!foo>-->`. -/
theorem spec_c5_counterexample :
    minify_html_with_options (("<!foo>").toList) keep_comments_options =
      ("<!--<!foo>-->").toList ∧
    minify_html_with_options (("<!foo>").toList) keep_comments_options ≠
      ("<!foo>").toList := by
  exact ⟨by decide, by decide⟩

/-- C5 amended: a `<!...>` construct that is not a comment, DOCTYPE or
CDATA is tokenized as a Comment token whose content is the whole
construct from `<` up to and including the closing `>` (or to end of
input); when comment removal is disabled the driver emits it wrapped in
`<!--`/`-->` (not byte-identical pass-through), and when removal is
enabled (its content starting with `<`, it never matches the
conditional-comment pattern) it is dropped. -/
theorem spec_c5_special_tag_conservative :
    (∀ (r2 content rest : List Char),
        ¬(r2.length > 2 ∧ r2.take 2 = ("--").toList) →
        ¬(r2.length > 7 ∧ r2.take 7 = ("DOCTYPE").toList) →
        ¬(r2.length > 7 ∧ r2.take 7 = ("[CDATA[").toList) →
        consume_until_byte '>' r2 = (content, '>' :: rest) →
        parse_special_tag r2 =
          some (.Comment ('<' :: '!' :: (content ++ ['>'])), ⟨rest, false⟩)) ∧
    (∀ (r2 content : List Char),
        ¬(r2.length > 2 ∧ r2.take 2 = ("--").toList) →
        ¬(r2.length > 7 ∧ r2.take 7 = ("DOCTYPE").toList) →
        ¬(r2.length > 7 ∧ r2.take 7 = ("[CDATA[").toList) →
        consume_until_byte '>' r2 = (content, []) →
        parse_special_tag r2 = some (.Comment ('<' :: '!' :: content), ⟨[], false⟩)) ∧
    (∀ (res ctext : List Char) (ctx : MinifierContext),
        ctx.options.remove_comments = false →
        handle_token res (.Comment ctext) ctx =
          (res ++ ("<!--").toList ++ ctext ++ ("-->").toList, ctx)) ∧
    (∀ (res ctext : List Char) (ctx : MinifierContext),
        ctx.options.remove_comments = true →
        is_conditional_comment ctext = false →
        handle_token res (.Comment ctext) ctx = (res, ctx)) ∧
    (∀ rest : List Char, is_conditional_comment ('<' :: rest) = false) := by
  refine ⟨?_, ?_, ?_, ?_, ?_⟩
  · intro r2 content rest h1 h2 h3 hsplit
    unfold parse_special_tag
    rw [if_neg h1, if_neg h2, if_neg h3, hsplit]
    rfl
  · intro r2 content h1 h2 h3 hsplit
    unfold parse_special_tag
    rw [if_neg h1, if_neg h2, if_neg h3, hsplit]
  · intro res ctext ctx hrc
    simp only [handle_token, hrc]
    split_ifs
    all_goals first | rfl | simp_all
  · intro res ctext ctx hrc hcond
    simp only [handle_token, hrc, hcond]
    split_ifs
    all_goals first | rfl | simp_all
  · intro rest
    rfl

/-- Witness for the amended C5 theorem: the tokenizer path on the body of
`<!foo>`. -/
theorem spec_c5_special_tag_conservative_witness :
    parse_special_tag (("foo>").toList) =
      some (.Comment (("<!foo>").toList), ⟨[], false⟩) :=
  spec_c5_special_tag_conservative.1 (("foo>").toList) (("foo").toList) []
    (by decide) (by decide) (by decide) (by decide)

/-- C7 counterexample: a run of two whitespace chars before `<` leaves
one space directly before the `<` in the result (`a  <b>` cleans to
`a <b>`), so it is not true that no space ever remains before a `<`. -/
theorem spec_c7_counterexample :
    cleanup_html_spacing (("a  <b>").toList) = ("a <b>").toList ∧
    contains_seq ([' ', '<']) (cleanup_html_spacing (("a  <b>").toList)) = true := by
  exact ⟨by decide, by decide⟩

/-- C7 amended: one step of the final spacing pass.  After `>` the
following whitespace run is skipped; a single whitespace char whose
immediate successor is `<` is dropped (a longer run before `<` collapses
to one surviving space, see the counterexample); any other whitespace run
collapses to one space; `=` pops all buffered spaces and skips following
spaces. -/
theorem spec_c7_cleanup_steps :
    (∀ (f : Nat) (cleaned rest : List Char),
        cleanup_loop (f + 1) cleaned ('>' :: rest) =
          cleanup_loop f (cleaned ++ ['>']) (skip_following_whitespace rest)) ∧
    (∀ (f : Nat) (cleaned rest : List Char) (w : Char),
        rust_is_whitespace w = true → rest.head? = some '<' →
        cleanup_loop (f + 1) cleaned (w :: rest) = cleanup_loop f cleaned rest) ∧
    (∀ (f : Nat) (cleaned rest : List Char) (w : Char),
        rust_is_whitespace w = true → rest.head? ≠ some '<' →
        cleanup_loop (f + 1) cleaned (w :: rest) =
          cleanup_loop f (if ends_with cleaned [' '] then cleaned else cleaned ++ [' '])
            (skip_following_whitespace rest)) ∧
    (∀ (f : Nat) (cleaned rest : List Char),
        cleanup_loop (f + 1) cleaned ('=' :: rest) =
          cleanup_loop f (drop_trailing_spaces cleaned ++ ['=']) (rest.dropWhile (· = ' '))) := by
  refine ⟨?_, ?_, ?_, ?_⟩
  · intro f cleaned rest
    simp [cleanup_loop]
  · intro f cleaned rest w hws hpeek
    have hgt : ¬(w = '>') := by
      intro hx
      rw [hx] at hws
      simp [rust_is_whitespace] at hws
    rw [cleanup_loop]
    simp [hgt, hws, hpeek]
  · intro f cleaned rest w hws hpeek
    have hgt : ¬(w = '>') := by
      intro hx
      rw [hx] at hws
      simp [rust_is_whitespace] at hws
    rw [cleanup_loop]
    simp only [hgt, if_false, hws, if_true, hpeek]
    by_cases he : ends_with cleaned [' ']
    · simp [he]
    · simp [he]
  · intro f cleaned rest
    have hgt : ¬(('=' : Char) = '>') := by decide
    have hws : rust_is_whitespace '=' = false := by decide
    rw [cleanup_loop]
    simp [hgt, hws]

/-- Witness for the amended C7 theorem: dropping a single space directly
before a `<`. -/
theorem spec_c7_cleanup_steps_witness :
    cleanup_loop 3 (("a").toList) ([' ', '<']) = cleanup_loop 2 (("a").toList) (['<']) :=
  spec_c7_cleanup_steps.2.1 2 (("a").toList) (['<']) ' ' (by decide) (by decide)

/-- C6: at a `;` read by the CSS main loop (hence outside string literals
and comments, which are consumed whole by their handlers), the semicolon
is appended exactly when the next non-whitespace input char is not `}`
(first conjunct gives the step, second counts the emitted `;`), and
consequently `body {  color: red;  margin: 0;  }` minifies to
`body{color:red;margin:0}`. -/
theorem spec_c6_semicolon_elision :
    (∀ (f : Nat) (res rest : List Char) (last_ch : Char),
        minify_css_loop (f + 1) res last_ch (';' :: rest) =
          minify_css_loop f
            (if next_non_ws rest = some '}' then res
              else (if last_ch = ' ' then res.dropLast else res) ++ [';'])
            ';' rest) ∧
    (∀ (res rest : List Char) (last_ch : Char),
        (last_ch = ' ' → res.getLast? = some ' ') →
        (if next_non_ws rest = some '}' then res
          else (if last_ch = ' ' then res.dropLast else res) ++ [';']).count ';' =
          res.count ';' + (if next_non_ws rest = some '}' then 0 else 1)) ∧
    minify_css (("body \x7b  color: red;  margin: 0;  \x7d").toList) =
      ("body\x7bcolor:red;margin:0\x7d").toList := by
  refine ⟨?_, ?_, by decide⟩
  · intro f res rest last_ch
    have hws : rust_is_whitespace ';' = false := by decide
    rw [minify_css_loop]
    by_cases hnw : next_non_ws rest = some '}'
    · simp [hnw, hws]
    · simp [hnw, hws]
  · intro res rest last_ch hlast
    by_cases hnw : next_non_ws rest = some '}'
    · simp [hnw]
    · simp only [hnw, if_false]
      rw [List.count_append]
      by_cases hsp : last_ch = ' '
      · simp only [hsp, if_true]
        rw [count_dropLast_of_getLast_space res (hlast hsp)]
        simp
      · simp [hsp]

/-- Witness for the C6 theorem: the counting conjunct at a concrete
state where the lookahead sees `}`. -/
theorem spec_c6_semicolon_elision_witness :
    (if next_non_ws (("  \x7d").toList) = some '}' then ("a;b").toList
      else (if 'b' = ' ' then (("a;b").toList).dropLast else ("a;b").toList) ++ [';']).count ';' =
      (("a;b").toList).count ';' +
        (if next_non_ws (("  \x7d").toList) = some '}' then 0 else 1) :=
  spec_c6_semicolon_elision.2.1 (("a;b").toList) (("  \x7d").toList) 'b' (by decide)

/-- Reduction of `is_regex_context` when a two-char operator ends the
trimmed output. -/
theorem is_regex_context_double (out : List Char)
    (h1 : trim_end_ws out ≠ [])
    (h2 : is_regex_after_single_char_operator (trim_end_ws out) = false)
    (h3 : is_regex_after_double_operator (trim_end_ws out) = true) :
    is_regex_context out = true := by
  unfold is_regex_context
  simp [h1, h2, h3]

/-- Reduction of `is_regex_context` through the ambiguous-operator rule. -/
theorem is_regex_context_ambiguous (out : List Char) (v : Bool)
    (h1 : trim_end_ws out ≠ [])
    (h2 : is_regex_after_single_char_operator (trim_end_ws out) = false)
    (h3 : is_regex_after_double_operator (trim_end_ws out) = false)
    (h4 : is_regex_after_ambiguous_operator (trim_end_ws out) = some v) :
    is_regex_context out = v := by
  unfold is_regex_context
  simp [h1, h2, h3, h4]

/-- A successful two-char-operator suffix test yields one of the twelve
operator pairs. -/
theorem double_operator_cases (t : List Char)
    (h : is_regex_after_double_operator t = true) :
    ∃ x y : Char,
      (x, y) ∈ [('+', '+'), ('-', '-'), ('*', '*'), ('=', '='), ('!', '='), ('<', '='),
        ('>', '='), ('<', '<'), ('>', '>'), ('&', '&'), ('|', '|'), ('?', '?')] ∧
      ends_with t [x, y] = true := by
  unfold is_regex_after_double_operator at h
  simp only [Bool.or_eq_true] at h
  rcases h with (((((((((((h | h) | h) | h) | h) | h) | h) | h) | h) | h) | h) | h)
  · exact ⟨'+', '+', by decide, h⟩
  · exact ⟨'-', '-', by decide, h⟩
  · exact ⟨'*', '*', by decide, h⟩
  · exact ⟨'=', '=', by decide, h⟩
  · exact ⟨'!', '=', by decide, h⟩
  · exact ⟨'<', '=', by decide, h⟩
  · exact ⟨'>', '=', by decide, h⟩
  · exact ⟨'<', '<', by decide, h⟩
  · exact ⟨'>', '>', by decide, h⟩
  · exact ⟨'&', '&', by decide, h⟩
  · exact ⟨'|', '|', by decide, h⟩
  · exact ⟨'?', '?', by decide, h⟩

/-- C2: at a `/` that does not open a comment, with the trimmed emitted
output ending in an ambiguous single-char operator (`+ - * % < >`), the
decision of `is_regex_context` is division (false) exactly when a char
precedes that operator and is alphanumeric or one of `) ] _ $`, and regex
(true) otherwise; consequently `let pattern = /test/g;` keeps its regex
and `(a + b) / c` keeps its division. -/
theorem spec_c2_ambiguous_operator_rule :
    (∀ (out : List Char) (c : Char),
        (trim_end_ws out).getLast? = some c →
        c ∈ ['+', '-', '*', '%', '<', '>'] →
        (is_regex_context out = false ↔
          ∃ b, ((trim_end_ws out).dropLast).getLast? = some b ∧
            (rust_is_alphanumeric b = true ∨ b ∈ [')', ']', '_', '$']))) ∧
    minify_javascript (("let pattern = /test/g;").toList) =
      ("let pattern=/test/g;").toList ∧
    minify_javascript (("(a + b) / c").toList) = ("(a+b)/c").toList := by
  refine ⟨?_, by decide, by decide⟩
  intro out c hlast hc
  have hc6 : c = '+' ∨ c = '-' ∨ c = '*' ∨ c = '%' ∨ c = '<' ∨ c = '>' := by
    simpa using hc
  have hcn : c.toNat < 128 := by
    rcases hc6 with rfl | rfl | rfl | rfl | rfl | rfl <;> decide
  have htne : trim_end_ws out ≠ [] := by
    intro hx
    rw [hx] at hlast
    simp at hlast
  have hsingle : is_regex_after_single_char_operator (trim_end_ws out) = false := by
    unfold is_regex_after_single_char_operator
    rw [hlast]
    rcases hc6 with rfl | rfl | rfl | rfl | rfl | rfl <;> decide
  by_cases hd : is_regex_after_double_operator (trim_end_ws out) = true
  · refine iff_of_false ?_ ?_
    · rw [is_regex_context_double out htne hsingle hd]
      simp
    · rintro ⟨bb, hbb, hprop⟩
      obtain ⟨x, y, hxy, hends⟩ := double_operator_cases _ hd
      obtain ⟨h1, h2⟩ := ends_with_concat2 _ _ _ hends
      rw [hlast] at h1
      have hyc : y = c := (Option.some.inj h1).symm
      rw [h2] at hbb
      obtain rfl := Option.some.inj hbb
      have hxfacts : rust_is_alphanumeric x = false ∧ ¬(x ∈ [')', ']', '_', '$']) := by
        have hgen : ∀ p ∈ [(('+' : Char), ('+' : Char)), ('-', '-'), ('*', '*'), ('=', '='),
            ('!', '='), ('<', '='), ('>', '='), ('<', '<'), ('>', '>'), ('&', '&'),
            ('|', '|'), ('?', '?')],
            p.2 ∈ ['+', '-', '*', '%', '<', '>'] →
            rust_is_alphanumeric p.1 = false ∧ ¬(p.1 ∈ [')', ']', '_', '$']) := by decide
        exact hgen (x, y) hxy (by rw [hyc]; exact hc)
      rcases hprop with hp | hp
      · rw [hxfacts.1] at hp
        simp at hp
      · exact hxfacts.2 hp
  · have hdf : is_regex_after_double_operator (trim_end_ws out) = false := by
      revert hd
      cases is_regex_after_double_operator (trim_end_ws out) <;> simp
    cases hdrop : ((trim_end_ws out).dropLast).getLast? with
    | none =>
      have hdl : (trim_end_ws out).dropLast = [] := by
        cases hdl2 : (trim_end_ws out).dropLast with
        | nil => rfl
        | cons a l =>
          rw [hdl2] at hdrop
          simp at hdrop
      have ht1 : trim_end_ws out = [c] := by
        cases hteq : trim_end_ws out with
        | nil => exact absurd hteq htne
        | cons a l =>
          cases l with
          | nil =>
            rw [hteq] at hlast
            simp at hlast
            rw [hlast]
          | cons a2 l2 =>
            rw [hteq] at hdl
            simp at hdl
      have hbl : byte_len (trim_end_ws out) = 1 := by
        rw [ht1, byte_len_cons]
        simp [byte_len, utf8Len, hcn]
      have hambig : is_regex_after_ambiguous_operator (trim_end_ws out) = some true := by
        simp only [is_regex_after_ambiguous_operator, hlast]
        have hnb2 : ¬(byte_len (trim_end_ws out) ≥ 2) := by omega
        simp [hc, hnb2]
      refine iff_of_false ?_ ?_
      · rw [is_regex_context_ambiguous out true htne hsingle hdf hambig]
        simp
      · rintro ⟨bb, hbb, -⟩
        simp at hbb
    | some b =>
      have hdlne : (trim_end_ws out).dropLast ≠ [] := by
        intro hx
        rw [hx] at hdrop
        simp at hdrop
      have ht2 : (trim_end_ws out).dropLast ++ [c] = trim_end_ws out := by
        have h1 := List.dropLast_append_getLast htne
        have h2 : (trim_end_ws out).getLast htne = c := by
          have h3 := List.getLast?_eq_getLast (trim_end_ws out) htne
          rw [hlast] at h3
          exact (Option.some.inj h3).symm
        rw [h2] at h1
        exact h1
      have hbl2 : byte_len (trim_end_ws out) ≥ 2 := by
        rw [← ht2, byte_len_concat]
        have hp1 := byte_len_pos _ hdlne
        have hp2 := utf8Len_pos c
        omega
      by_cases hP : (rust_is_alphanumeric b = true ∨ b ∈ [')', ']', '_', '$'])
      · have hambig : is_regex_after_ambiguous_operator (trim_end_ws out) = some false := by
          simp only [is_regex_after_ambiguous_operator, hlast, hdrop]
          simp at hP
          simp [hc, hbl2, hP]
        rw [is_regex_context_ambiguous out false htne hsingle hdf hambig]
        exact iff_of_true rfl ⟨b, rfl, hP⟩
      · have hambig : is_regex_after_ambiguous_operator (trim_end_ws out) = some true := by
          simp only [is_regex_after_ambiguous_operator, hlast, hdrop]
          simp at hP
          simp [hc, hbl2, hP]
        rw [is_regex_context_ambiguous out true htne hsingle hdf hambig]
        refine iff_of_false (by simp) ?_
        rintro ⟨bb, hbb, hprop⟩
        obtain rfl := Option.some.inj hbb
        exact hP hprop

/-- Witness for the C2 theorem: output ending in an identifier char
followed by `+` is division context. -/
theorem spec_c2_ambiguous_operator_rule_witness :
    is_regex_context (("a+").toList) = false :=
  (spec_c2_ambiguous_operator_rule.1 (("a+").toList) '+' (by decide) (by decide)).mpr
    ⟨'a', by decide, by decide⟩
